import Mathlib

/-!
Verification of `src/vendor/printenvz/src/printenvz.c`.

The program is a ten-line C utility:

  int main(int argc, char *argv[], char *envp[]) {
      fprintf(stdout, "--printenvz--begin\n");
      for (char **env = envp; *env != NULL; ++env) {
          fprintf(stdout, "%s%c", *env, '\0');
      }
      fprintf(stdout, "\n--printenvz--end\n");
      return 0;
  }

Shallow embedding: output streams are modelled as byte lists (`List Nat`,
each byte < 256 in practice; all markers are ASCII so code points coincide
with bytes).  The pair of streams (stdout, stderr) is an explicit `OutState`
threaded through the calls; `fprintf` appends bytes to the chosen stream.
An environment entry is a byte list; as a C string it cannot contain the
null byte 0, which appears as a hypothesis where the claim needs it.
`argc`/`argv` are taken as parameters, matching the C signature, and — like
the C code — never inspected.
-/

namespace Printenvz

/-- Code points of a string; for the ASCII marker literals used by the
program these are exactly the output bytes. -/
def strBytes (s : String) : List Nat := s.toList.map (fun c => c.toNat)

/-- The two output streams the C runtime offers to `fprintf`. -/
inductive FileStream where
  | stdout
  | stderr

/-- Observable output state of the process: the bytes written so far to
each of the two streams. -/
structure OutState where
  outBytes : List Nat
  errBytes : List Nat

/-- One `fprintf(stream, ...)` call: append the formatted bytes to the
chosen stream. -/
def fprintf (s : FileStream) (bytes : List Nat) (st : OutState) : OutState :=
  match s with
  | .stdout => { st with outBytes := st.outBytes ++ bytes }
  | .stderr => { st with errBytes := st.errBytes ++ bytes }

/-- The `for (char **env = envp; *env != NULL; ++env)` loop: each iteration
performs `fprintf(stdout, "%s%c", *env, '\0')`, i.e. writes the entry's
bytes followed by one null byte, then advances to the next entry.  The
NULL terminator of the C array is the end of the Lean list. -/
def envLoop (envp : List (List Nat)) (st : OutState) : OutState :=
  match envp with
  | [] => st
  | e :: rest => envLoop rest (fprintf .stdout (e ++ [0]) st)

/-- The whole program: begin marker, the loop over `envp`, end marker,
`return 0`.  Result: the final output state and the exit code. -/
def main (argc : Nat) (argv : List (List Nat)) (envp : List (List Nat)) :
    OutState × Nat :=
  let st0 := fprintf .stdout (strBytes "--printenvz--begin\n") ⟨[], []⟩
  let st1 := envLoop envp st0
  let st2 := fprintf .stdout (strBytes "\n--printenvz--end\n") st1
  (st2, 0)

/-- Pure view of the bytes the loop emits: each entry followed by a null
byte, concatenated in order. -/
def envzBytes : List (List Nat) → List Nat
  | [] => []
  | e :: rest => e ++ 0 :: envzBytes rest

/-- Modelled from the spec's words (§6, byte-exact contract): the entry
block is the entries "concatenated with no separator other than the
trailing null byte of each". -/
def specEntriesBlock (envp : List (List Nat)) : List Nat :=
  envp.foldr (fun e acc => e ++ [0] ++ acc) []

/-- Modelled from the spec's words (§6): the complete standard-output byte
stream promised by the contract. -/
def specOutput (envp : List (List Nat)) : List Nat :=
  strBytes "--printenvz--begin\n" ++ specEntriesBlock envp ++
    strBytes "\n--printenvz--end\n"

/-- Splitting a byte stream on null bytes: `splitZAux bs acc` accumulates
the bytes of the current entry in `acc` and emits it at each null byte;
bytes after the last null byte (none, for well-formed streams) are
dropped. -/
def splitZAux : List Nat → List Nat → List (List Nat)
  | [], _ => []
  | 0 :: rest, acc => acc :: splitZAux rest []
  | b :: rest, acc => splitZAux rest (acc ++ [b])

/-- Decoder for the null-terminated entry block: the list of entries
recovered by splitting on null bytes. -/
def decodeZ (bs : List Nat) : List (List Nat) := splitZAux bs []

lemma envLoop_eq (envp : List (List Nat)) (st : OutState) :
    envLoop envp st = ⟨st.outBytes ++ envzBytes envp, st.errBytes⟩ := by
  induction envp generalizing st with
  | nil => simp [envLoop, envzBytes]
  | cons e rest ih =>
      simp [envLoop, envzBytes, fprintf, ih]

lemma main_out (argc : Nat) (argv envp : List (List Nat)) :
    (main argc argv envp).1 =
      ⟨strBytes "--printenvz--begin\n" ++ envzBytes envp ++
        strBytes "\n--printenvz--end\n", []⟩ := by
  simp [main, fprintf, envLoop_eq]

lemma main_exit (argc : Nat) (argv envp : List (List Nat)) :
    (main argc argv envp).2 = 0 := rfl

lemma envzBytes_eq_specEntriesBlock (envp : List (List Nat)) :
    envzBytes envp = specEntriesBlock envp := by
  induction envp with
  | nil => rfl
  | cons e rest ih => simp [envzBytes, specEntriesBlock, ih]

lemma envzBytes_append (xs ys : List (List Nat)) :
    envzBytes (xs ++ ys) = envzBytes xs ++ envzBytes ys := by
  induction xs with
  | nil => rfl
  | cons e rest ih => simp [envzBytes, ih]

lemma splitZAux_entry (e : List Nat) (he : (0 : Nat) ∉ e) :
    ∀ (rest acc : List Nat),
      splitZAux (e ++ 0 :: rest) acc = (acc ++ e) :: splitZAux rest [] := by
  induction e with
  | nil => intro rest acc; simp [splitZAux]
  | cons b bs ih =>
      intro rest acc
      have hb : b ≠ 0 := fun h => he (h ▸ List.mem_cons_self b bs)
      have hbs : (0 : Nat) ∉ bs := fun h => he (List.mem_cons_of_mem b h)
      cases b with
      | zero => exact absurd rfl hb
      | succ n =>
          simp only [List.cons_append, splitZAux, List.append_eq]
          rw [ih hbs rest (acc ++ [Nat.succ n])]
          simp

lemma decodeZ_envzBytes (envp : List (List Nat))
    (h : ∀ e ∈ envp, (0 : Nat) ∉ e) :
    decodeZ (envzBytes envp) = envp := by
  induction envp with
  | nil => rfl
  | cons e rest ih =>
      have he : (0 : Nat) ∉ e := h e (List.mem_cons_self e rest)
      have hrest : ∀ x ∈ rest, (0 : Nat) ∉ x :=
        fun x hx => h x (List.mem_cons_of_mem e hx)
      simp only [envzBytes, decodeZ]
      have h1 := splitZAux_entry e he (envzBytes rest) []
      simp only [List.nil_append] at h1
      have h2 := ih hrest
      simp only [decodeZ] at h2
      rw [h1, h2]

lemma envzBytes_count_zero (envp : List (List Nat))
    (h : ∀ e ∈ envp, (0 : Nat) ∉ e) :
    (envzBytes envp).count 0 = envp.length := by
  induction envp with
  | nil => rfl
  | cons e rest ih =>
      have he : (0 : Nat) ∉ e := h e (List.mem_cons_self e rest)
      have hrest : ∀ x ∈ rest, (0 : Nat) ∉ x :=
        fun x hx => h x (List.mem_cons_of_mem e hx)
      simp [envzBytes, List.count_append, List.count_cons,
        List.count_eq_zero.mpr he, ih hrest, Nat.add_comm]

lemma envzBytes_length (envp : List (List Nat)) :
    (envzBytes envp).length = (envp.map List.length).sum + envp.length := by
  induction envp with
  | nil => rfl
  | cons e rest ih =>
      simp [envzBytes, ih]
      ring

/-- C1: for every environment list, the complete standard-output byte
stream of the program is the begin marker line, then every entry's raw
bytes each followed by exactly one null byte with no other separator, then
one newline, then the end marker line followed by a newline — i.e. exactly
the byte stream the spec's byte-exact contract describes. -/
theorem output_is_spec_contract (argc : Nat) (argv envp : List (List Nat)) :
    (main argc argv envp).1.outBytes = specOutput envp := by
  rw [main_out, specOutput, envzBytes_eq_specEntriesBlock]

/-- C2: with an empty environment list the standard-output byte stream is
exactly the bytes of `--printenvz--begin\n\n--printenvz--end\n`: begin
marker line, the inter-block newline, end marker line, and nothing else. -/
theorem output_empty_env (argc : Nat) (argv : List (List Nat)) :
    (main argc argv []).1.outBytes =
      strBytes "--printenvz--begin\n\n--printenvz--end\n" := by
  rw [main_out]
  decide

/-- C3: for an environment list of length `n` (entries NUL-free, as C
strings are), the output decomposes as begin marker, entry block, end
marker, and the entry block contains exactly `n` null bytes — hence
exactly `n` null-terminated entries between the markers, which is also
what the decoder recovers. -/
theorem entry_count_invariant (argc : Nat) (argv envp : List (List Nat))
    (h : ∀ e ∈ envp, (0 : Nat) ∉ e) :
    (main argc argv envp).1.outBytes =
        strBytes "--printenvz--begin\n" ++ envzBytes envp ++
          strBytes "\n--printenvz--end\n" ∧
      (envzBytes envp).count 0 = envp.length ∧
      (decodeZ (envzBytes envp)).length = envp.length := by
  refine ⟨by rw [main_out], envzBytes_count_zero envp h, ?_⟩
  rw [decodeZ_envzBytes envp h]

theorem entry_count_invariant_witness :
    (main 1 [[120]] [[80, 61, 49], [72, 61, 50]]).1.outBytes =
        strBytes "--printenvz--begin\n" ++
          envzBytes [[80, 61, 49], [72, 61, 50]] ++
          strBytes "\n--printenvz--end\n" ∧
      (envzBytes [[80, 61, 49], [72, 61, 50]]).count 0 = 2 ∧
      (decodeZ (envzBytes [[80, 61, 49], [72, 61, 50]])).length = 2 :=
  entry_count_invariant 1 [[120]] [[80, 61, 49], [72, 61, 50]] (by decide)

/-- C4: order preservation — splitting the emitted entry block back on its
null terminators, the `i`-th recovered entry is exactly the `i`-th element
of the environment list the program was launched with, for every index. -/
theorem entry_order_preserved (envp : List (List Nat))
    (h : ∀ e ∈ envp, (0 : Nat) ∉ e) (i : Nat) :
    (decodeZ (envzBytes envp)).get? i = envp.get? i := by
  rw [decodeZ_envzBytes envp h]

theorem entry_order_preserved_witness :
    (decodeZ (envzBytes [[80, 61, 49], [72, 61, 50]])).get? 1 =
      [[80, 61, 49], [72, 61, 50]].get? 1 :=
  entry_order_preserved [[80, 61, 49], [72, 61, 50]] (by decide) 1

/-- C5: content fidelity — for every index `i`, the full output stream
contains, between the bytes for the earlier entries and those for the
later ones, exactly the `i`-th input entry's bytes unchanged, followed by
its null terminator: no transformation, truncation or re-encoding. -/
theorem entry_content_fidelity (argc : Nat) (argv envp : List (List Nat))
    (i : Nat) (hi : i < envp.length) :
    (main argc argv envp).1.outBytes =
      strBytes "--printenvz--begin\n" ++ envzBytes (envp.take i) ++
        (envp.get ⟨i, hi⟩ ++ [0]) ++ envzBytes (envp.drop (i + 1)) ++
        strBytes "\n--printenvz--end\n" := by
  rw [main_out]
  have hsplit : envp = envp.take i ++ envp.get ⟨i, hi⟩ :: envp.drop (i + 1) := by
    conv_lhs => rw [← List.take_append_drop i envp]
    rw [List.drop_eq_getElem_cons hi]
    rfl
  conv_lhs => rw [hsplit]
  rw [envzBytes_append]
  simp [envzBytes]

theorem entry_content_fidelity_witness :
    (main 0 [] [[80, 61, 49], [72, 61, 50]]).1.outBytes =
      strBytes "--printenvz--begin\n" ++ envzBytes ([[80, 61, 49], [72, 61, 50]].take 1) ++
        (([[80, 61, 49], [72, 61, 50]].get ⟨1, by decide⟩) ++ [0]) ++
        envzBytes ([[80, 61, 49], [72, 61, 50]].drop 2) ++
        strBytes "\n--printenvz--end\n" :=
  entry_content_fidelity 0 [] [[80, 61, 49], [72, 61, 50]] 1 (by decide)

/-- C6: the program always returns exit code 0, for every `argc`, `argv`
and environment list; in the embedding no other exit path exists (write
results are never checked, so no failure can change the code). -/
theorem exit_code_always_zero (argc : Nat) (argv envp : List (List Nat)) :
    (main argc argv envp).2 = 0 :=
  main_exit argc argv envp

/-- C7: every write of the program targets the standard-output stream; the
standard-error stream ends the run exactly as it started — empty — for
every input, so the only other observable effect is the exit code. -/
theorem stderr_untouched (argc : Nat) (argv envp : List (List Nat)) :
    (main argc argv envp).1.errBytes = [] := by
  rw [main_out]

/-- C8: the output state and exit code are independent of the command-line
arguments: two invocations with the same environment but arbitrary
different `argc`/`argv` produce identical results. -/
theorem output_independent_of_args (argc argc' : Nat)
    (argv argv' envp : List (List Nat)) :
    main argc argv envp = main argc' argv' envp := rfl

/-- C9: the loop terminates on every finite environment list, writing one
entry (its bytes plus one null terminator) per iteration and nothing to
standard error: the final stdout length is the initial one plus the total
entry bytes plus one byte per entry.  The loop function itself is total by
structural recursion on the list, whose end models the terminating NULL. -/
theorem envLoop_total (envp : List (List Nat)) (st : OutState) :
    (envLoop envp st).outBytes.length =
        st.outBytes.length + (envp.map List.length).sum + envp.length ∧
      (envLoop envp st).errBytes = st.errBytes := by
  rw [envLoop_eq]
  simp [envzBytes_length]
  ring

/-- C10: the encoding is lossless and invertible — for NUL-free entries
(as every C string is), splitting the emitted entry block on null bytes
recovers exactly the original environment list: a full round trip. -/
theorem encode_decode_roundtrip (envp : List (List Nat))
    (h : ∀ e ∈ envp, (0 : Nat) ∉ e) :
    decodeZ (envzBytes envp) = envp :=
  decodeZ_envzBytes envp h

theorem encode_decode_roundtrip_witness :
    decodeZ (envzBytes [[80, 61, 49], [], [72, 61, 50]]) =
      [[80, 61, 49], [], [72, 61, 50]] :=
  encode_decode_roundtrip [[80, 61, 49], [], [72, 61, 50]] (by decide)

end Printenvz
